import Mathlib

/-!
Verification development for the comfydv ComfyUI plugin nodes.

The Python sources under src/comfydv are shallowly embedded below:
pure string manipulation becomes functions on `List Char`, the class-level
mutable attributes of `FormatString` become an explicit `State` record, and
host or library effects (the Jinja2 engine, the filesystem, CPython's
`random` module generator) become explicit parameters of the embedded
functions.  All definitions are executable.
-/

set_option maxRecDepth 4000

/-- Word character of CPython's regex class backslash-w for ASCII text:
letters, digits and the underscore. -/
def isWordChar (c : Char) : Bool := c.isAlphanum || c = '_'

/-- Whitespace of CPython's regex class backslash-s and of `str.strip`:
space, tab, newline, carriage return, vertical tab and form feed. -/
def isSpaceChar (c : Char) : Bool :=
  c = ' ' || c = '\t' || c = '\n' || c = '\r' || c = Char.ofNat 11 || c = Char.ofNat 12

/-- The left curly brace character (written via its code point so that brace
characters never appear literally in the file). -/
def lb : Char := Char.ofNat 123

/-- The right curly brace character. -/
def rb : Char := Char.ofNat 125

/-- Character class of the regex atom matching a word character or a dot. -/
def isWordDot (c : Char) : Bool := isWordChar c || c = '.'

/-- Character class of the regex atom matching a word character or whitespace. -/
def isWordSpace (c : Char) : Bool := isWordChar c || isSpaceChar c

/-- Lookup in an association list, first match wins: the embedding of a
Python dict read `d.get(k)` (Python function kwargs have unique keys, and
`dict.get` returns the stored value or None). -/
def alookup {α : Type} : List (String × α) → String → Option α
  | [], _ => none
  | p :: rest, k => if p.1 = k then some p.2 else alookup rest k

/-- The embedding of `d.get(k, default)`. -/
def agetD {α : Type} (d : List (String × α)) (k : String) (dflt : α) : α :=
  (alookup d k).getD dflt

/-- The embedding of Python dict assignment `d[k] = v`: replace the value in
place when the key is present (keeping insertion order), append otherwise. -/
def dictInsert {α : Type} : List (String × α) → String → α → List (String × α)
  | [], k, v => [(k, v)]
  | p :: rest, k, v => if p.1 = k then (k, v) :: rest else p :: dictInsert rest k v

/-- A JSON value, as produced by `json.load` and consumed by `json.dump`. -/
inductive Json where
  | str (s : String)
  | num (n : Int)
  | bool (b : Bool)
  | null
  | arr (xs : List Json)
  | obj (fields : List (String × Json))

/-- The keys of a JSON object (and the empty list on non-objects). -/
def objKeys : Json → List String
  | Json.obj fields => fields.map (fun p => p.1)
  | _ => []

namespace FormatString

/-- Keys of the class attribute `FormatString.additional_context`
(the dict mapping "datetime", "now", "random", "math" to host objects). -/
def additional_context : List String := [ "datetime", "now", "random", "math" ]

/-! ### The regex scanners of `FormatString._extract_keys`

`_extract_keys` runs three `re` scans over the template.  Each concrete
regular expression is embedded as a deterministic scanner on `List Char`
that reproduces CPython's leftmost-match, greedy-with-backtracking
semantics for that particular pattern.  Scanners that restart after a
match use an explicit fuel argument (one unit per character of the input,
which each step strictly consumes) instead of well-founded recursion. -/

/-- Tail of the first regex: the closing part, whitespace then two right
braces.  The greedy whitespace star never needs backtracking because a
brace is not whitespace. -/
def matchClose (cs : List Char) : Option (List Char) :=
  match cs.dropWhile isSpaceChar with
  | c1 :: c2 :: r => if c1 = rb && c2 = rb then some r else none
  | _ => none

/-- Optional group of the first regex matching a dot, one or more
non-parenthesis characters, then a literal pair of parentheses.  The greedy
plus never backtracks usefully: every shorter match leaves a
non-parenthesis character where an opening parenthesis is required. -/
def tryDotCall (cs : List Char) : Option (List Char) :=
  match cs with
  | c :: r =>
    if c = '.' then
      if (r.takeWhile (fun x => x ≠ '(' && x ≠ ')')).isEmpty then none
      else
        match r.dropWhile (fun x => x ≠ '(' && x ≠ ')') with
        | c1 :: c2 :: r2 => if c1 = '(' && c2 = ')' then some r2 else none
        | _ => none
    else none
  | [] => none

/-- After the optional pipe group: try the optional dot-call group first
(greedy option), falling back to its absence. -/
def tryAfterPipe (cs : List Char) : Option (List Char) :=
  match tryDotCall cs with
  | some r =>
    match matchClose r with
    | some r2 => some r2
    | none => matchClose cs
  | none => matchClose cs

/-- After the captured core of the first regex: try the optional group of a
pipe followed by one or more word-or-space characters (whose greedy plus
never backtracks usefully, since every shorter match leaves a
word-or-space character where a dot or a right brace is required), falling
back to its absence. -/
def tryAfterCore (cs : List Char) : Option (List Char) :=
  match cs with
  | c :: r =>
    if c = '|' && !(r.takeWhile isWordSpace).isEmpty then
      match tryAfterPipe (r.dropWhile isWordSpace) with
      | some r2 => some r2
      | none => tryAfterPipe cs
    else tryAfterPipe cs
  | [] => none

/-- Backtracking over the captured group of the first regex (one or more
word-or-dot characters): CPython tries the longest capture first and
shortens it until the rest of the pattern matches. -/
def tryCores (run rest : List Char) : Nat → Option (List Char × List Char)
  | 0 => none
  | k + 1 =>
    match tryAfterCore (run.drop (k + 1) ++ rest) with
    | some r => some (run.take (k + 1), r)
    | none => tryCores run rest k

/-- Attempt of the first regex (a double-brace Jinja2 expression) at the
head of the input: two left braces, greedy whitespace, the captured
word-or-dot core, the two optional groups, whitespace, two right braces.
Returns the captured group and the remainder after the match. -/
def matchJinjaAt (cs : List Char) : Option (List Char × List Char) :=
  match cs with
  | c1 :: c2 :: r =>
    if c1 = lb && c2 = lb then
      if ((r.dropWhile isSpaceChar).takeWhile isWordDot).isEmpty then none
      else
        tryCores ((r.dropWhile isSpaceChar).takeWhile isWordDot)
          ((r.dropWhile isSpaceChar).dropWhile isWordDot)
          ((r.dropWhile isSpaceChar).takeWhile isWordDot).length
    else none
  | _ => none

/-- Scanner of `re.finditer` for the first regex: at each position try the
pattern; on success emit the capture and resume after the match, otherwise
advance one character. -/
def pass1Aux : Nat → List Char → List (List Char)
  | 0, _ => []
  | _, [] => []
  | fuel + 1, c :: r =>
    match matchJinjaAt (c :: r) with
    | some (v, rest) => v :: pass1Aux fuel rest
    | none => pass1Aux fuel r

/-- Captures of the first regex scan over the template. -/
def pass1 (cs : List Char) : List (List Char) := pass1Aux (cs.length + 1) cs

/-- Scanner of `re.finditer` for the second regex (format-style fields): a
left brace, one or more word characters, a right brace.  The greedy plus
never backtracks because every shorter match leaves a word character where
the right brace is required. -/
def pass2Aux : Nat → List Char → List (List Char)
  | 0, _ => []
  | _, [] => []
  | fuel + 1, c :: r =>
    if c = lb then
      match r.takeWhile isWordChar, r.dropWhile isWordChar with
      | w :: ws, d :: r2 =>
        if d = rb then (w :: ws) :: pass2Aux fuel r2 else pass2Aux fuel r
      | _, _ => pass2Aux fuel r
    else pass2Aux fuel r

/-- Captures of the second regex scan over the template. -/
def pass2 (cs : List Char) : List (List Char) := pass2Aux (cs.length + 1) cs

/-- Lazy scan of the third regex's body: the shortest run of
non-newline characters up to a percent sign followed by a right brace
(CPython's dot does not match a newline).  Returns the body and the
remainder after the closing delimiter. -/
def scanStructBody : List Char → Option (List Char × List Char)
  | c1 :: c2 :: r =>
    if c1 = '%' && c2 = rb then some ([], r)
    else if c1 = '\n' then none
    else (scanStructBody (c2 :: r)).map (fun p => (c1 :: p.1, p.2))
  | _ => none

/-- Scanner of `re.findall` for the inner regex of the third pass: a word
run at a word boundary, immediately followed by a pipe that is itself
followed by a word character.  The boolean argument records whether the
previous character was a word character (for the leading boundary). -/
def pipeVarsAux : Nat → Bool → List Char → List (List Char)
  | 0, _, _ => []
  | _, _, [] => []
  | fuel + 1, prevW, c :: r =>
    if isWordChar c && !prevW then
      match (c :: r).dropWhile isWordChar with
      | d :: r2 =>
        if d = '|' && (match r2 with | e :: _ => isWordChar e | [] => false) then
          ((c :: r).takeWhile isWordChar) :: pipeVarsAux fuel false r2
        else pipeVarsAux fuel true (d :: r2)
      | [] => []
    else pipeVarsAux fuel (isWordChar c) r

/-- All matches of the inner pipe regex in a control structure. -/
def pipeVars (cs : List Char) : List (List Char) := pipeVarsAux (cs.length + 1) false cs

/-- The keyword names filtered out inside control structures. -/
def structKeywords : List String := [ "if", "else", "elif", "for", "in" ]

/-- Scanner of `re.finditer` for the third regex (control structures):
a left brace and percent sign, the lazy body, percent sign and right
brace; inside each matched structure the pipe regex is scanned and names
starting with "end" or equal to a keyword are dropped. -/
def pass3Aux : Nat → List Char → List (List Char)
  | 0, _ => []
  | _, [] => []
  | fuel + 1, c :: r =>
    match
      (match c :: r with
       | c1 :: c2 :: r2 => if c1 = lb && c2 = '%' then scanStructBody r2 else none
       | _ => none) with
    | some (body, rest) =>
      (pipeVars (lb :: '%' :: (body ++ '%' :: rb :: []))).filter
        (fun v => !(List.isPrefixOf ('e' :: 'n' :: 'd' :: []) v)
                  && !(structKeywords.contains (String.mk v)))
      ++ pass3Aux fuel rest
    | none => pass3Aux fuel r

/-- Filtered captures of the third regex scan over the template. -/
def pass3 (cs : List Char) : List (List Char) := pass3Aux (cs.length + 1) cs

/-- The embedding of Python `str.strip`: drop whitespace at both ends. -/
def trimChars (l : List Char) : List Char :=
  ((l.dropWhile isSpaceChar).reverse.dropWhile isSpaceChar).reverse

/-- Normalisation applied by the nested `add_var`: take the part before
the first pipe, then the part before the first dot, then strip
whitespace. -/
def stripRaw (v : List Char) : List Char :=
  trimChars ((v.takeWhile (fun c => c ≠ '|')).takeWhile (fun c => c ≠ '.'))

/-- One step of the nested `add_var`: append the normalised name unless it
was already seen or is a key of `additional_context`.  The state is the
pair of the `variables` list and the `seen` set (as a list). -/
def addVar (st : List String × List String) (raw : List Char) : List String × List String :=
  if String.mk (stripRaw raw) ∉ st.2 ∧ String.mk (stripRaw raw) ∉ additional_context then
    (st.1 ++ [String.mk (stripRaw raw)], String.mk (stripRaw raw) :: st.2)
  else st

/-- The embedding of `FormatString._extract_keys`: run the three regex
scans in source order and fold their captures through `add_var`. -/
def _extract_keys (template : String) : List String :=
  ((pass1 template.data ++ pass2 template.data ++ pass3 template.data).foldl
    addVar ([], [])).1

end FormatString

/-- The empty string (named so that literals need not follow identifiers). -/
def emptyS : String := ""

/-- The template-type selector value for the Python-format branch. -/
def sSimple : String := "Simple"

/-- The string "STRING", the unique socket type used by the node. -/
def sSTRING : String := "STRING"

namespace FormatString

/-! ### `str.format` and `FormatString.format_string` -/

/-- A concrete formatter implementing one fragment of CPython's
`str.format(**kwargs)`: a doubled brace is an escaped literal brace, a
simple named field is replaced by the keyword argument of that name, an
unmatched brace (ValueError) or missing keyword (KeyError) is `none`.
Real `str.format` is larger than this fragment (fields may carry
conversions, format specs, attribute access or indexing, and many of
those succeed on string keyword arguments; attribute access can even
return a bound method whose formatted text contains a memory address, so
the full builtin is not a pure function of the node's inputs).  The
embedding therefore takes the formatter abstractly, as the host-supplied
function `Host.pyformat`; this executable fragment only instantiates
hosts in concrete witnesses. -/
def pyFormatFragmentAux (kw : List (String × String)) : Nat → List Char → Option (List Char)
  | 0, _ => none
  | fuel + 1, cs =>
    match cs with
    | [] => some []
    | c :: r =>
      if c = lb then
        match r with
        | [] => none
        | c2 :: r2 =>
          if c2 = lb then (pyFormatFragmentAux kw fuel r2).map (fun l => lb :: l)
          else
            match r.dropWhile (fun x => x ≠ rb) with
            | _ :: r3 =>
              match alookup kw (String.mk (r.takeWhile (fun x => x ≠ rb))) with
              | some v => (pyFormatFragmentAux kw fuel r3).map (fun l => v.data ++ l)
              | none => none
            | [] => none
      else if c = rb then
        match r with
        | c2 :: r2 =>
          if c2 = rb then (pyFormatFragmentAux kw fuel r2).map (fun l => rb :: l) else none
        | [] => none
      else (pyFormatFragmentAux kw fuel r).map (fun l => c :: l)

/-- The fragment formatter on whole strings (see `pyFormatFragmentAux`);
it agrees with `template.format(**kwargs)` on templates whose fields are
simple names, and is used only to instantiate `Host.pyformat` in
witnesses. -/
def pyFormatFragment (template : String) (kw : List (String × String)) : Option String :=
  (pyFormatFragmentAux kw (template.data.length + 1) template.data).map String.mk

/-- The host environment of `format_string`: the output directory returned
by `folder_paths.get_output_directory()`, whether the
makedirs/open/json.dump sequence succeeds, and the two template engines,
taken abstractly as host-supplied functions (the builtin `str.format`,
whose full behaviour is not a pure function of the inputs, and the
sandboxed Jinja2 engine).  `pyformat` is the behaviour of
`template.format(**kwargs)` on the template and keyword arguments, with
`none` a raised exception; `jinja` is the behaviour of
`from_string(template).render(**context)` on the template and the user
context, with an error value a raised `TemplateSyntaxError` and its
message (the engine model already includes the merged
`additional_context`).  Theorems quantify over every host, so every
behaviour of the real engines is an instance. -/
structure Host where
  output_dir : String
  save_ok : Bool
  pyformat : String → List (String × String) → Option String
  jinja : String → List (String × String) → Except String String

/-- The embedding of `os.path.join(a, b)` for two POSIX path components. -/
def joinPath (a b : String) : String :=
  if b.data.head? = some '/' then b
  else if a = emptyS || a.data.getLast? = some '/' then a ++ b
  else a ++ "/" ++ b

/-- The formatting step of `format_string`: the builtin `str.format` in
Simple mode (`none` propagates the exception), the Jinja2 engine
otherwise with a `TemplateSyntaxError` turned into an error string. -/
def formattedOpt (host : Host) (template_type template : String)
    (kwargs : List (String × String)) : Option String :=
  if template_type = sSimple then host.pyformat template kwargs
  else
    match host.jinja template kwargs with
    | Except.ok s => some s
    | Except.error e => some ("Error in Jinja2 template: " ++ e)

/-- The `save_data` record built by `format_string` (dict insertion
order; `json.dump(..., sort_keys=True)` later serialises the same three
keys sorted). -/
def saveRecord (template_type template : String) (keys : List String)
    (kwargs : List (String × String)) : Json :=
  Json.obj
    [ ( "template_type", Json.str template_type ),
      ( "template", Json.str template ),
      ( "inputs", Json.obj (keys.map (fun k => (k, Json.str (agetD kwargs k emptyS))))) ]

/-- The value of `FormatString.format_string`: the returned tuple as a
list of strings together with the record written to disk (if any);
`none` is a propagated exception from the formatting step. -/
structure FormatResult where
  outputs : List String
  written : Option Json

/-- The embedding of `FormatString.format_string`: extract the keys,
format, build `save_data`, then (for a truthy `save_path`) join the path
onto the host output directory and attempt the write, resetting the path
to the empty string when the write fails; return the keyword values of
the extracted keys, the formatted string and the final path. -/
def format_string (host : Host) (template_type template save_path : String)
    (kwargs : List (String × String)) : Option FormatResult :=
  let keys := _extract_keys template
  match formattedOpt host template_type template kwargs with
  | none => none
  | some formatted_string =>
    let save_data := saveRecord template_type template keys kwargs
    let saved : String × Option Json :=
      if save_path ≠ emptyS then
        if host.save_ok then (joinPath host.output_dir save_path, some save_data)
        else (emptyS, none)
      else (save_path, none)
    some ⟨keys.map (fun k => agetD kwargs k emptyS) ++ [formatted_string, saved.1], saved.2⟩

/-! ### The class-level state, `update_widget` and `get_node_config` -/

/-- An entry of the `inputs` dict of a node configuration. -/
inductive WidgetSpec where
  | comboBox (options : List String)
  | stringMultiline
  | stringDefault (d : String)
deriving DecidableEq

/-- A node configuration as built by `update_widget`: the `inputs` dict
and the `outputs` list of name/type pairs. -/
structure NodeConfig where
  inputs : List (String × WidgetSpec)
  outputs : List (String × String)
deriving DecidableEq

/-- The class-level attributes of `FormatString` that Python code could
mutate: the two constant strings, the two return-shape tuples, the
`node_configs` table and the keys of `additional_context`. -/
structure State where
  CATEGORY : String
  FUNCTION : String
  RETURN_TYPES : List String
  RETURN_NAMES : List String
  node_configs : List (String × NodeConfig)
  additional_context_keys : List String
deriving DecidableEq

/-- The class attributes as initialised at class creation time. -/
def defaultState : State :=
  { CATEGORY := "dv/string_operations",
    FUNCTION := "format_string",
    RETURN_TYPES := [ sSTRING, sSTRING ],
    RETURN_NAMES := [ "formatted_string", "saved_file_path" ],
    node_configs := [],
    additional_context_keys := additional_context }

/-- The embedding of `FormatString.update_widget`: build the configuration
from the extracted keys, reassign the class attributes `RETURN_TYPES` and
`RETURN_NAMES`, store the configuration under the node id, and return it. -/
def update_widget (st : State) (node_id template_type template : String) :
    State × NodeConfig :=
  let keys := _extract_keys template
  let config : NodeConfig :=
    { inputs :=
        [ ( "template_type", WidgetSpec.comboBox [ sSimple, "Jinja2" ] ),
          ( "template", WidgetSpec.stringMultiline ),
          ( "save_path", WidgetSpec.stringDefault emptyS ) ]
        ++ keys.map (fun k => (k, WidgetSpec.stringDefault emptyS)),
      outputs := keys.map (fun k => (k, sSTRING))
        ++ [ ( "formatted_string", sSTRING ), ( "saved_file_path", sSTRING ) ] }
  ({ st with
      RETURN_TYPES := List.replicate keys.length sSTRING ++ [ sSTRING, sSTRING ],
      RETURN_NAMES := keys ++ [ "formatted_string", "saved_file_path" ],
      node_configs := dictInsert st.node_configs node_id config },
   config)

/-- The embedding of `FormatString.get_node_config`:
`cls.node_configs.get(node_id, dict())`; `none` stands for the returned
empty dict. -/
def get_node_config (st : State) (node_id : String) : Option NodeConfig :=
  alookup st.node_configs node_id

/-! ### `FormatString.load_node_state` -/

/-- Outcome of opening and JSON-parsing the state file, the effect of
`open(file_path)` followed by `json.load`: the parsed value, a raised
FileNotFoundError, or any other raised exception with its message. -/
inductive ReadOutcome where
  | ok (data : Json)
  | fileNotFound
  | otherError (msg : String)

/-- The embedding of `FormatString.load_node_state`: return the parsed
data, and the empty dict on either exception branch (the second branch
also logs the error). -/
def load_node_state (outcome : ReadOutcome) : Json :=
  match outcome with
  | ReadOutcome.ok d => d
  | ReadOutcome.fileNotFound => Json.obj []
  | ReadOutcome.otherError _ => Json.obj []

end FormatString

/-! ### The CircuitBreaker and RandomChoice nodes -/

/-- A Python value as passed through the node graph where the concrete
type matters: integers (the seed input), strings, and booleans (the
status input). -/
inductive PyVal where
  | int (n : Int)
  | str (s : String)
  | bool (b : Bool)
deriving DecidableEq, Repr

/-- Python truthiness on the embedded values. -/
def pyTruthy : PyVal → Bool
  | PyVal.int n => n ≠ 0
  | PyVal.str s => s ≠ emptyS
  | PyVal.bool b => b

/-- Truthiness of `kwargs.get(k)`: None (a missing key) is falsy. -/
def pyTruthyOpt : Option PyVal → Bool
  | none => false
  | some v => pyTruthy v

/-- The key of the optional status input of CircuitBreaker. -/
def sStatus : String := "status"

/-- The key of the optional seed input of RandomChoice. -/
def sSeed : String := "seed"

namespace CircuitBreaker

/-- Result of a call to `doit`: either the raised
`InterruptProcessingException` or the returned one-element tuple. -/
inductive Result (α : Type) where
  | interrupted
  | ret (out : List α)
deriving DecidableEq

/-- The embedding of `CircuitBreaker.doit`: raise the host interrupt
exception when `kwargs.get("status")` is truthy, otherwise return the
one-element tuple holding the trigger. -/
def doit {α : Type} (trigger : α) (kwargs : List (String × PyVal)) : Result α :=
  if pyTruthyOpt (alookup kwargs sStatus) then Result.interrupted
  else Result.ret [trigger]

end CircuitBreaker

namespace RandomChoice

/-- `sys.maxsize` on a 64-bit CPython. -/
def sysMaxsize : Nat := 2 ^ 63 - 1

/-- Model of the `random` module: the Mersenne Twister is abstracted to a
single natural-number state.  `pyValSeed` is the state installed by
`random.seed(v)` (any function of the seed value alone; the claims rely
only on its being such a function). -/
def pyValSeed : PyVal → Nat
  | PyVal.int n => n.natAbs
  | PyVal.str s => s.data.foldl (fun a c => a * 256 + c.toNat) 0
  | PyVal.bool b => if b then 1 else 0

/-- State transition of the abstracted generator after one draw. -/
def rngNext (g : Nat) : Nat :=
  (6364136223846793005 * g + 1442695040888963407) % 2 ^ 64

/-- The seeding statement of `random_choice`: `random.seed(seed)` for a
truthy seed value, otherwise `random.seed(random.randrange(sys.maxsize))`
(a fresh value drawn from the current generator state). -/
def reseed (g : Nat) : Option PyVal → Nat
  | some v =>
    if pyTruthy v then pyValSeed v
    else pyValSeed (PyVal.int (Int.ofNat (g % sysMaxsize)))
  | none => pyValSeed (PyVal.int (Int.ofNat (g % sysMaxsize)))

/-- The embedding of `RandomChoice.random_choice`: seed the generator,
keep the non-seed entries of kwargs in order, and return the one-element
tuple holding the value of the entry drawn by `random.choice` (the next
draw of the generator, reduced modulo the list length).  `none` is the
IndexError that `random.choice` raises on an empty sequence and the
`except` clause re-raises. -/
def random_choice (g : Nat) (kwargs : List (String × PyVal)) :
    Option (List PyVal) × Nat :=
  let g1 := reseed g (alookup kwargs sSeed)
  let input := kwargs.filter (fun i => i.1 ≠ sSeed)
  match input[g1 % input.length]? with
  | some e => (some [e.2], rngNext g1)
  | none => (none, g1)

end RandomChoice

namespace SpecModel

/-- Modelled from the spec: occurrence of a variable name in the template
in the Python format-style dialect, a left brace, the name, a right brace
(claim C1's first dialect). -/
def occursSimpleB (v t : String) : Bool :=
  t.data.tails.any (fun s => List.isPrefixOf (lb :: (v.data ++ [rb])) s)

/-- Modelled from the spec: occurrence of a variable name in the template
in the Jinja2 expression dialect, two left braces, optional whitespace,
the name, optional whitespace, two right braces (claim C1's second
dialect). -/
def occursJinjaB (v t : String) : Bool :=
  t.data.tails.any (fun s =>
    match s with
    | c1 :: c2 :: r =>
      if c1 = lb && c2 = lb then
        let r1 := r.dropWhile isSpaceChar
        List.isPrefixOf v.data r1 &&
          (match (r1.drop v.data.length).dropWhile isSpaceChar with
           | d1 :: d2 :: _ => d1 = rb && d2 = rb
           | _ => false)
      else false
    | _ => false)

end SpecModel

/-! ### Association-list lemmas -/

/-- Inserting a key and looking it up returns the inserted value. -/
theorem alookup_dictInsert_self {α : Type} (d : List (String × α)) (k : String) (v : α) :
    alookup (dictInsert d k v) k = some v := by
  induction d with
  | nil => simp [dictInsert, alookup]
  | cons p rest ih =>
    by_cases h : p.1 = k
    · simp [dictInsert, h, alookup]
    · simp [dictInsert, h, alookup, ih]

/-- A key absent from the key list looks up to nothing. -/
theorem alookup_eq_none_of_not_mem_keys {α : Type} (d : List (String × α)) (k : String)
    (h : k ∉ d.map (fun p => p.1)) : alookup d k = none := by
  induction d with
  | nil => rfl
  | cons p rest ih =>
    simp only [List.map_cons, List.mem_cons] at h
    push_neg at h
    have hne : ¬ p.1 = k := fun he => h.1 he.symm
    simp [alookup, hne, ih h.2]

/-- Looking up a key of a graph-style map built by `List.map`. -/
theorem alookup_map_self {α : Type} (l : List String) (f : String → α) (k : String)
    (h : k ∈ l) : alookup (l.map (fun x => (x, f x))) k = some (f k) := by
  induction l with
  | nil => cases h
  | cons x rest ih =>
    rcases List.mem_cons.mp h with h1 | h2
    · simp [alookup, h1]
    · by_cases hx : x = k
      · simp [alookup, hx]
      · simp [alookup, hx, ih h2]

/-! ### Concrete values used in witnesses and counterexamples -/

/-- A host whose filesystem writes succeed, running the concrete
fragment formatter. -/
def hostOk : FormatString.Host :=
  ⟨ "/out", true, FormatString.pyFormatFragment, fun _ _ => Except.ok emptyS ⟩

/-- A host whose filesystem writes fail, running the concrete fragment
formatter. -/
def hostBad : FormatString.Host :=
  ⟨ "/out", false, FormatString.pyFormatFragment, fun _ _ => Except.ok emptyS ⟩

/-- The template "hello (brace)name(brace)" with one format-style field. -/
def tmplName : String := "hello \x7bname\x7d"

/-- A template with a dotted Jinja2 expression and a control structure. -/
def tmplMixed : String := "\x7b\x7b a.b \x7d\x7d \x7b% if x|y %\x7d"

/-- A template with no fields at all. -/
def tmplHi : String := "hi"

/-- A non-empty relative save path. -/
def savePathX : String := "x.json"

/-- Two node identifiers. -/
def nodeA : String := "n1"

/-- A second node identifier, never stored. -/
def nodeB : String := "n2"

/-- Keyword arguments binding the template variable "name". -/
def kwBob : List (String × String) := [ ("name", "Bob") ]

/-- RandomChoice keyword arguments with two non-seed entries and no seed. -/
def kwPlain : List (String × PyVal) := [ ("input1", PyVal.str "a"), ("input2", PyVal.str "b") ]

/-- The same keyword arguments with the declared default seed 0. -/
def kwSeed0 : List (String × PyVal) := (sSeed, PyVal.int 0) :: kwPlain

/-- The same keyword arguments with a truthy seed. -/
def kwSeed5 : List (String × PyVal) := (sSeed, PyVal.int 5) :: kwPlain

/-! ### Claims C3, C4, C6, C8, C9, C10 -/

/-- Claim C3: CircuitBreaker.doit raises the host interrupt exception if
and only if the status keyword argument is truthy; when status is falsy or
absent it returns the one-element tuple holding the unchanged trigger. -/
theorem doit_interrupt_iff_truthy_status {α : Type} (trigger : α)
    (kwargs : List (String × PyVal)) :
    (CircuitBreaker.doit trigger kwargs = CircuitBreaker.Result.interrupted ↔
      pyTruthyOpt (alookup kwargs sStatus) = true) ∧
    (pyTruthyOpt (alookup kwargs sStatus) = false →
      CircuitBreaker.doit trigger kwargs = CircuitBreaker.Result.ret [ trigger ]) := by
  unfold CircuitBreaker.doit
  cases h : pyTruthyOpt (alookup kwargs sStatus) <;> simp [h]

/-- Witness for claim C3 at a concrete input with the status key absent. -/
theorem doit_interrupt_iff_truthy_status_witness :
    pyTruthyOpt (alookup ([] : List (String × PyVal)) sStatus) = false ∧
    CircuitBreaker.doit (0 : Nat) ([] : List (String × PyVal)) =
      CircuitBreaker.Result.ret [ 0 ] :=
  ⟨by decide, (doit_interrupt_iff_truthy_status (0 : Nat) []).2 (by decide)⟩

/-- Claim C4 counterexample: update_widget reassigns the shared class
attribute RETURN_NAMES (and RETURN_TYPES), so node_configs is not the only
class attribute it modifies. -/
theorem update_widget_changes_return_names :
    (FormatString.update_widget FormatString.defaultState nodeA sSimple tmplName).1.RETURN_NAMES ≠
      FormatString.defaultState.RETURN_NAMES := by decide

/-- Claim C4 amended: update_widget modifies only node_configs,
RETURN_TYPES and RETURN_NAMES; the remaining class attributes (CATEGORY,
FUNCTION, the additional_context keys) are unchanged for every input. -/
theorem update_widget_frame (st : FormatString.State) (n tt t : String) :
    ((FormatString.update_widget st n tt t).1.CATEGORY = st.CATEGORY) ∧
    ((FormatString.update_widget st n tt t).1.FUNCTION = st.FUNCTION) ∧
    ((FormatString.update_widget st n tt t).1.additional_context_keys =
      st.additional_context_keys) :=
  ⟨rfl, rfl, rfl⟩

/-- Claim C6: load_node_state never raises: it returns the parsed JSON
data when the read and parse succeed, and the empty dict both when the
file is missing and when any other exception occurs. -/
theorem load_node_state_total :
    (∀ d, FormatString.load_node_state (FormatString.ReadOutcome.ok d) = d) ∧
    FormatString.load_node_state FormatString.ReadOutcome.fileNotFound = Json.obj [] ∧
    (∀ m, FormatString.load_node_state (FormatString.ReadOutcome.otherError m) = Json.obj []) :=
  ⟨fun _ => rfl, rfl, fun _ => rfl⟩

/-- Claim C8: after update_widget stores a configuration under a node id,
get_node_config returns exactly the configuration update_widget returned;
and get_node_config of a never-stored id returns the empty dict (`none`). -/
theorem node_config_roundtrip (st : FormatString.State) (n tt t : String) :
    FormatString.get_node_config (FormatString.update_widget st n tt t).1 n =
      some (FormatString.update_widget st n tt t).2 ∧
    ∀ m, m ∉ st.node_configs.map (fun p => p.1) →
      FormatString.get_node_config st m = none := by
  constructor
  · simp [FormatString.get_node_config, FormatString.update_widget, alookup_dictInsert_self]
  · intro m hm
    exact alookup_eq_none_of_not_mem_keys _ _ hm

/-- Witness for claim C8 at concrete node ids and template. -/
theorem node_config_roundtrip_witness :
    FormatString.get_node_config
        (FormatString.update_widget FormatString.defaultState nodeA sSimple tmplName).1 nodeA =
      some (FormatString.update_widget FormatString.defaultState nodeA sSimple tmplName).2 ∧
    FormatString.get_node_config FormatString.defaultState nodeB = none :=
  ⟨(node_config_roundtrip FormatString.defaultState nodeA sSimple tmplName).1,
   (node_config_roundtrip FormatString.defaultState nodeA sSimple tmplName).2 nodeB (by decide)⟩

/-- Claim C9: whenever the keyword arguments contain at least one
non-seed entry, random_choice returns a one-element tuple whose element is
the value of one of the non-seed entries. -/
theorem random_choice_picks_non_seed_value (g : Nat) (kwargs : List (String × PyVal))
    (h : ∃ e ∈ kwargs, e.1 ≠ sSeed) :
    ∃ e ∈ kwargs, e.1 ≠ sSeed ∧
      (RandomChoice.random_choice g kwargs).1 = some [ e.2 ] := by
  obtain ⟨e0, he0, hne⟩ := h
  have hmem : e0 ∈ kwargs.filter (fun i => i.1 ≠ sSeed) := by
    simp [List.mem_filter, he0, hne]
  have hlen : 0 < (kwargs.filter (fun i => i.1 ≠ sSeed)).length :=
    List.length_pos.mpr (List.ne_nil_of_mem hmem)
  simp only [RandomChoice.random_choice]
  set L := kwargs.filter (fun i => i.1 ≠ sSeed) with hL
  set idx := RandomChoice.reseed g (alookup kwargs sSeed) % L.length with hidxdef
  have hidx : idx < L.length := Nat.mod_lt _ hlen
  have hget : L[idx]? = some (L.get ⟨idx, hidx⟩) := List.getElem?_eq_getElem hidx
  have hm : L.get ⟨idx, hidx⟩ ∈ L := List.get_mem L idx hidx
  have hmf := List.mem_filter.mp hm
  refine ⟨L.get ⟨idx, hidx⟩, hmf.1, by simpa using hmf.2, ?_⟩
  rw [hget]

/-- Witness for claim C9 at a concrete generator state and inputs. -/
theorem random_choice_picks_non_seed_value_witness :
    (∃ e ∈ kwPlain, e.1 ≠ sSeed) ∧
    ∃ e ∈ kwPlain, e.1 ≠ sSeed ∧
      (RandomChoice.random_choice 0 kwPlain).1 = some [ e.2 ] :=
  ⟨by decide, random_choice_picks_non_seed_value 0 kwPlain (by decide)⟩

/-- Claim C10: with a truthy seed, two invocations with identical keyword
arguments return the same choice whatever the hidden generator state; with
the declared default seed 0 or with the seed absent the generator is
reseeded from a fresh draw, and the returned choice depends on the hidden
generator state, not only on the inputs. -/
theorem random_choice_seed_determinism :
    (∀ g g' kwargs, pyTruthyOpt (alookup kwargs sSeed) = true →
      (RandomChoice.random_choice g kwargs).1 = (RandomChoice.random_choice g' kwargs).1) ∧
    (RandomChoice.random_choice 0 kwPlain).1 ≠ (RandomChoice.random_choice 1 kwPlain).1 ∧
    (RandomChoice.random_choice 0 kwSeed0).1 ≠ (RandomChoice.random_choice 1 kwSeed0).1 := by
  refine ⟨?_, by decide, by decide⟩
  intro g g' kwargs h
  cases hl : alookup kwargs sSeed with
  | none => rw [hl] at h; simp [pyTruthyOpt] at h
  | some v =>
    rw [hl] at h
    simp only [pyTruthyOpt] at h
    simp [RandomChoice.random_choice, hl, RandomChoice.reseed, h]

/-- Witness for claim C10 at a concrete truthy seed and two generator
states. -/
theorem random_choice_seed_determinism_witness :
    pyTruthyOpt (alookup kwSeed5 sSeed) = true ∧
    (RandomChoice.random_choice 7 kwSeed5).1 = (RandomChoice.random_choice 99 kwSeed5).1 :=
  ⟨by decide, random_choice_seed_determinism.1 7 99 kwSeed5 (by decide)⟩

/-! ### Claims C2, C5, C7 -/

/-- The path the concrete host writes under when asked to save to
`savePathX`. -/
def joinedX : String := "/out/x.json"

/-- The formatted value of `tmplName` under `kwBob`. -/
def sHelloBob : String := "hello Bob"

/-- Claim C2 counterexample: with a non-empty save_path and a successful
save, the final tuple element is the save path joined onto the host
output directory, not the save_path argument, so the tuple does not end
with "the save path". -/
theorem format_string_last_element_not_save_path :
    (FormatString.format_string hostOk sSimple tmplHi savePathX []).map
        (fun r => r.outputs) = some [ tmplHi, joinedX ] ∧
    joinedX ≠ savePathX := by decide

/-- Claim C2 amended: when template_type is Simple and str.format
succeeds, format_string returns a tuple of length
len(extracted keys) + 2: the string value of each extracted variable from
the keyword arguments in extraction order (empty string when missing),
the formatted template, and finally the saved-file path, which is the
(empty) save_path argument when no save was requested, the save path
joined onto the host output directory when the save succeeds, and the
empty string when the save fails.  The formatter is the abstract
`Host.pyformat`, universally quantified here, so every input on which the
real builtin succeeds is an instance of the hypothesis. -/
theorem format_string_simple_tuple_shape (host : FormatString.Host)
    (t sp : String) (kw : List (String × String)) (f : String)
    (h : host.pyformat t kw = some f) :
    (FormatString.format_string host sSimple t sp kw).map (fun r => r.outputs) =
      some ((FormatString._extract_keys t).map (fun k => agetD kw k emptyS) ++
        [ f, if sp = emptyS then sp
             else if host.save_ok then FormatString.joinPath host.output_dir sp
             else emptyS ]) ∧
    ∀ r, FormatString.format_string host sSimple t sp kw = some r →
      r.outputs.length = (FormatString._extract_keys t).length + 2 := by
  have hf : FormatString.formattedOpt host sSimple t kw = some f := by
    unfold FormatString.formattedOpt
    rw [if_pos rfl, h]
  have hmain : FormatString.format_string host sSimple t sp kw =
      some ⟨(FormatString._extract_keys t).map (fun k => agetD kw k emptyS) ++
        [ f, if sp = emptyS then sp
             else if host.save_ok then FormatString.joinPath host.output_dir sp
             else emptyS ],
        if sp = emptyS then none
        else if host.save_ok then
          some (FormatString.saveRecord sSimple t (FormatString._extract_keys t) kw)
        else none⟩ := by
    unfold FormatString.format_string
    rw [hf]
    by_cases hsp : sp = emptyS
    · simp [hsp]
    · by_cases hok : host.save_ok <;> simp [hsp, hok]
  constructor
  · rw [hmain]
    by_cases hsp : sp = emptyS <;> simp [hsp]
  · intro r hr
    rw [hmain] at hr
    injection hr with hr
    subst hr
    simp

/-- Witness for the amended claim C2 at a concrete host and template. -/
theorem format_string_simple_tuple_shape_witness :
    hostOk.pyformat tmplName kwBob = some sHelloBob ∧
    (FormatString.format_string hostOk sSimple tmplName savePathX kwBob).map
        (fun r => r.outputs) =
      some ((FormatString._extract_keys tmplName).map (fun k => agetD kwBob k emptyS) ++
        [ sHelloBob, if savePathX = emptyS then savePathX
             else if hostOk.save_ok then FormatString.joinPath hostOk.output_dir savePathX
             else emptyS ]) :=
  ⟨by decide,
   (format_string_simple_tuple_shape hostOk tmplName savePathX kwBob sHelloBob (by decide)).1⟩

/-- Claim C5: when a save was requested and the write fails, the
exception is not propagated: format_string still returns its full tuple,
with the final saved_file_path element equal to the empty string (and
nothing written).  The writing step only runs once the formatting step
has completed; formatting is the abstract host-supplied engine,
universally quantified here, so every real execution that reaches the
failing write is an instance of the hypothesis. -/
theorem format_string_save_failure_silent (host : FormatString.Host)
    (tt t sp : String) (kw : List (String × String)) (f : String)
    (h : FormatString.formattedOpt host tt t kw = some f)
    (hbad : host.save_ok = false) (hsp : sp ≠ emptyS) :
    FormatString.format_string host tt t sp kw =
      some ⟨(FormatString._extract_keys t).map (fun k => agetD kw k emptyS) ++
        [ f, emptyS ], none⟩ := by
  unfold FormatString.format_string
  rw [h]
  simp [hsp, hbad]

/-- Witness for claim C5 at a concrete failing host. -/
theorem format_string_save_failure_silent_witness :
    FormatString.formattedOpt hostBad sSimple tmplHi [] = some tmplHi ∧
    hostBad.save_ok = false ∧ savePathX ≠ emptyS ∧
    FormatString.format_string hostBad sSimple tmplHi savePathX [] =
      some ⟨(FormatString._extract_keys tmplHi).map
          (fun k => agetD ([] : List (String × String)) k emptyS) ++
        [ tmplHi, emptyS ], none⟩ :=
  ⟨by decide, by decide, by decide,
   format_string_save_failure_silent hostBad sSimple tmplHi savePathX [] tmplHi
     (by decide) (by decide) (by decide)⟩

/-- Claim C7: when save_path is non-empty and the write succeeds,
format_string writes a flat JSON record with exactly the three keys
template_type, template and inputs, whose inputs object maps each
extracted variable to its keyword-argument value, or the empty string
when the variable is missing.  Formatting is the abstract host-supplied
engine, universally quantified here, so every real execution that
reaches the write is an instance of the hypothesis. -/
theorem format_string_save_record (host : FormatString.Host)
    (tt t sp : String) (kw : List (String × String)) (f : String)
    (h : FormatString.formattedOpt host tt t kw = some f)
    (hok : host.save_ok = true) (hsp : sp ≠ emptyS) :
    ∃ r, FormatString.format_string host tt t sp kw = some r ∧
      r.written = some (FormatString.saveRecord tt t (FormatString._extract_keys t) kw) ∧
      FormatString.saveRecord tt t (FormatString._extract_keys t) kw =
        Json.obj [ ( "template_type", Json.str tt ), ( "template", Json.str t ),
          ( "inputs", Json.obj ((FormatString._extract_keys t).map
              (fun x => (x, Json.str (agetD kw x emptyS))))) ] ∧
      objKeys (FormatString.saveRecord tt t (FormatString._extract_keys t) kw) =
        [ "template_type", "template", "inputs" ] ∧
      ∀ k ∈ FormatString._extract_keys t,
        alookup ((FormatString._extract_keys t).map
            (fun x => (x, Json.str (agetD kw x emptyS)))) k =
          some (Json.str (agetD kw k emptyS)) := by
  refine ⟨⟨(FormatString._extract_keys t).map (fun k => agetD kw k emptyS) ++
      [ f, FormatString.joinPath host.output_dir sp ],
      some (FormatString.saveRecord tt t (FormatString._extract_keys t) kw)⟩,
    ?_, rfl, rfl, rfl, ?_⟩
  · unfold FormatString.format_string
    rw [h]
    simp [hsp, hok]
  · intro k hk
    exact alookup_map_self _ _ _ hk

/-- Witness for claim C7 at a concrete host and template. -/
theorem format_string_save_record_witness :
    FormatString.formattedOpt hostOk sSimple tmplName kwBob = some sHelloBob ∧
    hostOk.save_ok = true ∧ savePathX ≠ emptyS ∧
    ∃ r, FormatString.format_string hostOk sSimple tmplName savePathX kwBob = some r ∧
      r.written =
        some (FormatString.saveRecord sSimple tmplName
          (FormatString._extract_keys tmplName) kwBob) :=
  ⟨by decide, by decide, by decide, by
    obtain ⟨r, h1, h2, _⟩ :=
      format_string_save_record hostOk sSimple tmplName savePathX kwBob sHelloBob
        (by decide) (by decide) (by decide)
    exact ⟨r, h1, h2⟩⟩

/-! ### Substring lemmas for the extractor (claim C1) -/

/-- A prefix is an infix. -/
theorem prefix_isInfix {α : Type} {l1 l2 : List α} (h : l1 <+: l2) : l1 <:+: l2 := by
  obtain ⟨t, ht⟩ := h
  exact ⟨[], t, by simp [ht]⟩

/-- A suffix is an infix. -/
theorem suffix_isInfix {α : Type} {l1 l2 : List α} (h : l1 <:+ l2) : l1 <:+: l2 := by
  obtain ⟨t, ht⟩ := h
  exact ⟨t, [], by simp [ht]⟩

/-- Infixes compose. -/
theorem infix_trans {α : Type} {a b c : List α} (h1 : a <:+: b) (h2 : b <:+: c) :
    a <:+: c := by
  obtain ⟨s, t, rfl⟩ := h2
  obtain ⟨u, w, rfl⟩ := h1
  exact ⟨s ++ u, w ++ t, by simp⟩

/-- Appending on the right preserves the suffix relation. -/
theorem suffix_append_left {α : Type} {l1 l2 : List α} (h : l1 <:+ l2) (t : List α) :
    l1 ++ t <:+ l2 ++ t := by
  obtain ⟨u, hu⟩ := h
  exact ⟨u, by rw [← List.append_assoc, hu]⟩

/-- The remainder returned by `matchClose` is a suffix of its input. -/
theorem matchClose_suffix {cs r : List Char} (h : FormatString.matchClose cs = some r) :
    r <:+ cs := by
  unfold FormatString.matchClose at h
  split at h
  next c1 c2 r' heq =>
    split at h
    · injection h with h
      subst h
      refine List.IsSuffix.trans ?_ (List.dropWhile_suffix isSpaceChar)
      rw [heq]
      exact (List.suffix_cons _ _).trans (List.suffix_cons _ _)
    · simp at h
  next => simp at h

/-- The remainder returned by `tryDotCall` is a suffix of its input. -/
theorem tryDotCall_suffix {cs r : List Char} (h : FormatString.tryDotCall cs = some r) :
    r <:+ cs := by
  unfold FormatString.tryDotCall at h
  split at h
  next c tail =>
    split at h
    · split at h
      · simp at h
      · split at h
        next c1 c2 r' heq =>
          split at h
          · injection h with h
            subst h
            refine List.IsSuffix.trans ?_ (List.suffix_cons c tail)
            refine List.IsSuffix.trans ?_
              (List.dropWhile_suffix (fun x => x ≠ '(' && x ≠ ')'))
            rw [heq]
            exact (List.suffix_cons _ _).trans (List.suffix_cons _ _)
          · simp at h
        next => simp at h
    · simp at h
  next => simp at h

/-- The remainder returned by `tryAfterPipe` is a suffix of its input. -/
theorem tryAfterPipe_suffix {cs r : List Char} (h : FormatString.tryAfterPipe cs = some r) :
    r <:+ cs := by
  unfold FormatString.tryAfterPipe at h
  split at h
  next r1 hd =>
    split at h
    next r2 hc =>
      injection h with h
      subst h
      exact (matchClose_suffix hc).trans (tryDotCall_suffix hd)
    next => exact matchClose_suffix h
  next => exact matchClose_suffix h

/-- The remainder returned by `tryAfterCore` is a suffix of its input. -/
theorem tryAfterCore_suffix {cs r : List Char} (h : FormatString.tryAfterCore cs = some r) :
    r <:+ cs := by
  unfold FormatString.tryAfterCore at h
  split at h
  next c tail =>
    split at h
    · split at h
      next r2 hp =>
        injection h with h
        subst h
        exact ((tryAfterPipe_suffix hp).trans (List.dropWhile_suffix _)).trans
          (List.suffix_cons c tail)
      next => exact tryAfterPipe_suffix h
    · exact tryAfterPipe_suffix h
  next => simp at h

/-- A successful `tryCores` returns a prefix of the core run as the
capture, and a suffix of the run-plus-remainder as the rest. -/
theorem tryCores_spec {run rest : List Char} :
    ∀ (k : Nat) {v r : List Char}, FormatString.tryCores run rest k = some (v, r) →
      v <+: run ∧ r <:+ run ++ rest := by
  intro k
  induction k with
  | zero => intro v r h; simp [FormatString.tryCores] at h
  | succ k ih =>
    intro v r h
    unfold FormatString.tryCores at h
    split at h
    next r2 ha =>
      injection h with h
      rw [Prod.mk.injEq] at h
      obtain ⟨h1, h2⟩ := h
      subst h1
      subst h2
      refine ⟨List.take_prefix _ _, ?_⟩
      exact (tryAfterCore_suffix ha).trans (suffix_append_left (List.drop_suffix _ _) rest)
    next => exact ih h

/-- A successful `matchJinjaAt` captures an infix of its input and leaves
a strictly shorter suffix of its input. -/
theorem matchJinjaAt_spec {cs v r : List Char}
    (h : FormatString.matchJinjaAt cs = some (v, r)) :
    v <:+: cs ∧ r <:+ cs ∧ r.length < cs.length := by
  unfold FormatString.matchJinjaAt at h
  split at h
  next c1 c2 rr =>
    split at h
    · split at h
      · simp at h
      · obtain ⟨hv, hr⟩ := tryCores_spec _ h
        rw [List.takeWhile_append_dropWhile] at hr
        have hvin : v <:+: rr :=
          infix_trans (prefix_isInfix hv)
            (infix_trans (prefix_isInfix (List.takeWhile_prefix _))
              (suffix_isInfix (List.dropWhile_suffix _)))
        have hrs : r <:+ rr := hr.trans (List.dropWhile_suffix _)
        refine ⟨infix_trans hvin (suffix_isInfix
          ((List.suffix_cons c2 rr).trans (List.suffix_cons c1 _))), ?_, ?_⟩
        · exact hrs.trans ((List.suffix_cons c2 rr).trans (List.suffix_cons c1 _))
        · have := hrs.length_le
          simp only [List.length_cons]
          omega
    · simp at h
  next => simp at h

/-- Every capture of the first scan is an infix of the scanned text. -/
theorem pass1Aux_isInfix : ∀ (fuel : Nat) (cs v : List Char),
    v ∈ FormatString.pass1Aux fuel cs → v <:+: cs := by
  intro fuel
  induction fuel with
  | zero => intro cs v h; simp [FormatString.pass1Aux] at h
  | succ fuel ih =>
    intro cs v h
    cases cs with
    | nil => simp [FormatString.pass1Aux] at h
    | cons c r =>
      unfold FormatString.pass1Aux at h
      split at h
      next v0 rest hm =>
        rcases List.mem_cons.mp h with h1 | h2
        · subst h1
          exact (matchJinjaAt_spec hm).1
        · exact infix_trans (ih rest v h2) (suffix_isInfix (matchJinjaAt_spec hm).2.1)
      next hm => exact infix_trans (ih r v h) (suffix_isInfix (List.suffix_cons c r))

/-- Every capture of the second scan is an infix of the scanned text. -/
theorem pass2Aux_isInfix : ∀ (fuel : Nat) (cs v : List Char),
    v ∈ FormatString.pass2Aux fuel cs → v <:+: cs := by
  intro fuel
  induction fuel with
  | zero => intro cs v h; simp [FormatString.pass2Aux] at h
  | succ fuel ih =>
    intro cs v h
    cases cs with
    | nil => simp [FormatString.pass2Aux] at h
    | cons c r =>
      unfold FormatString.pass2Aux at h
      split at h
      · split at h
        next w ws d r2 htw hdw =>
          split at h
          · rcases List.mem_cons.mp h with h1 | h2
            · subst h1
              have hp : (w :: ws) <+: r := by rw [← htw]; exact List.takeWhile_prefix _
              exact infix_trans (prefix_isInfix hp) (suffix_isInfix (List.suffix_cons c r))
            · have hr2 : (d :: r2) <:+ r := by rw [← hdw]; exact List.dropWhile_suffix _
              exact infix_trans (ih r2 v h2)
                (suffix_isInfix (((List.suffix_cons d r2).trans hr2).trans
                  (List.suffix_cons c r)))
          · exact infix_trans (ih r v h) (suffix_isInfix (List.suffix_cons c r))
        next => exact infix_trans (ih r v h) (suffix_isInfix (List.suffix_cons c r))
      · exact infix_trans (ih r v h) (suffix_isInfix (List.suffix_cons c r))

/-- A successful lazy body scan exactly decomposes its input as the body
followed by the closing delimiter and the remainder. -/
theorem scanStructBody_eq : ∀ (cs : List Char) {body rest : List Char},
    FormatString.scanStructBody cs = some (body, rest) →
    body ++ '%' :: rb :: rest = cs := by
  intro cs
  induction cs with
  | nil => intro body rest h; simp [FormatString.scanStructBody] at h
  | cons c1 tl ih =>
    intro body rest h
    cases tl with
    | nil => simp [FormatString.scanStructBody] at h
    | cons c2 r =>
      unfold FormatString.scanStructBody at h
      split at h
      next hb =>
        injection h with h
        rw [Prod.mk.injEq] at h
        obtain ⟨h1, h2⟩ := h
        subst h1
        subst h2
        simp only [Bool.and_eq_true, decide_eq_true_eq] at hb
        rw [hb.1, hb.2]
        simp
      next hb =>
        split at h
        · simp at h
        · cases hs : FormatString.scanStructBody (c2 :: r) with
          | none => rw [hs] at h; simp at h
          | some p =>
            rw [hs] at h
            obtain ⟨b2, r2⟩ := p
            simp only [Option.map] at h
            injection h with h
            rw [Prod.mk.injEq] at h
            obtain ⟨h1, h2⟩ := h
            subst h1
            subst h2
            have hrec := ih hs
            simp only [List.cons_append]
            rw [hrec]

/-- Every match of the inner pipe scan is an infix of the scanned text. -/
theorem pipeVarsAux_isInfix : ∀ (fuel : Nat) (b : Bool) (cs v : List Char),
    v ∈ FormatString.pipeVarsAux fuel b cs → v <:+: cs := by
  intro fuel
  induction fuel with
  | zero => intro b cs v h; simp [FormatString.pipeVarsAux] at h
  | succ fuel ih =>
    intro b cs v h
    cases cs with
    | nil => simp [FormatString.pipeVarsAux] at h
    | cons c r =>
      unfold FormatString.pipeVarsAux at h
      split at h
      · split at h
        next d r2 hdw =>
          split at h
          · rcases List.mem_cons.mp h with h1 | h2
            · subst h1
              exact prefix_isInfix (List.takeWhile_prefix _)
            · have hr2 : (d :: r2) <:+ (c :: r) := by
                rw [← hdw]; exact List.dropWhile_suffix _
              exact infix_trans (ih false r2 v h2)
                (suffix_isInfix ((List.suffix_cons d r2).trans hr2))
          · have hr2 : (d :: r2) <:+ (c :: r) := by
              rw [← hdw]; exact List.dropWhile_suffix _
            exact infix_trans (ih true (d :: r2) v h) (suffix_isInfix hr2)
        next => simp at h
      · exact infix_trans (ih (isWordChar c) r v h) (suffix_isInfix (List.suffix_cons c r))

/-- Every filtered capture of the third scan is an infix of the scanned
text. -/
theorem pass3Aux_isInfix : ∀ (fuel : Nat) (cs v : List Char),
    v ∈ FormatString.pass3Aux fuel cs → v <:+: cs := by
  intro fuel
  induction fuel with
  | zero => intro cs v h; simp [FormatString.pass3Aux] at h
  | succ fuel ih =>
    intro cs v h
    cases cs with
    | nil => simp [FormatString.pass3Aux] at h
    | cons c r =>
      unfold FormatString.pass3Aux at h
      split at h
      next body rest hsb =>
        split at hsb
        next c1 c2 r2 heq =>
          split at hsb
          next hb =>
            injection heq with heq1 heq2
            subst heq1
            subst heq2
            simp only [Bool.and_eq_true, decide_eq_true_eq] at hb
            have hstruct : (lb :: '%' :: (body ++ '%' :: rb :: [])) ++ rest = c :: c2 :: r2 := by
              rw [hb.1, hb.2]
              have := scanStructBody_eq r2 hsb
              simp only [List.cons_append, List.append_assoc]
              rw [← this]
              simp
            rcases List.mem_append.mp h with h1 | h2
            · have hv : v ∈ FormatString.pipeVars (lb :: '%' :: (body ++ '%' :: rb :: [])) :=
                List.mem_of_mem_filter h1
              have hinf := pipeVarsAux_isInfix _ _ _ _ hv
              refine infix_trans hinf (prefix_isInfix ?_)
              exact ⟨rest, hstruct⟩
            · refine infix_trans (ih rest v h2) (suffix_isInfix ?_)
              exact ⟨lb :: '%' :: (body ++ '%' :: rb :: []), hstruct⟩
          next => simp at hsb
        next => simp at hsb
      next => exact infix_trans (ih r v h) (suffix_isInfix (List.suffix_cons c r))

/-- Stripping whitespace yields an infix. -/
theorem trimChars_isInfix (l : List Char) : FormatString.trimChars l <:+: l := by
  unfold FormatString.trimChars
  have h2 : (l.dropWhile isSpaceChar).reverse.dropWhile isSpaceChar <:+
      (l.dropWhile isSpaceChar).reverse := List.dropWhile_suffix _
  obtain ⟨u, hu⟩ := h2
  have h1 : ((l.dropWhile isSpaceChar).reverse.dropWhile isSpaceChar).reverse <+:
      l.dropWhile isSpaceChar := by
    refine ⟨u.reverse, ?_⟩
    rw [← List.reverse_append, hu, List.reverse_reverse]
  exact infix_trans (prefix_isInfix h1) (suffix_isInfix (List.dropWhile_suffix _))

/-- The add_var normalisation yields an infix of the raw capture. -/
theorem stripRaw_isInfix (v : List Char) : FormatString.stripRaw v <:+: v := by
  unfold FormatString.stripRaw
  exact infix_trans (trimChars_isInfix _)
    (infix_trans (prefix_isInfix (List.takeWhile_prefix _))
      (prefix_isInfix (List.takeWhile_prefix _)))

/-- Invariant of the add_var fold: the variables collected so far are
duplicate-free, recorded in the seen set, and exclude the additional
context keys. -/
def AddVarInv (st : List String × List String) : Prop :=
  st.1.Nodup ∧ ∀ v ∈ st.1, v ∈ st.2 ∧ v ∉ FormatString.additional_context

/-- One add_var step preserves the invariant. -/
theorem addVar_inv (st : List String × List String) (raw : List Char)
    (h : AddVarInv st) : AddVarInv (FormatString.addVar st raw) := by
  unfold FormatString.addVar
  split
  next hcond =>
    obtain ⟨h1, h2⟩ := hcond
    constructor
    · have hv1 : String.mk (FormatString.stripRaw raw) ∉ st.1 := fun hm => h1 ((h.2 _ hm).1)
      simp [List.nodup_append, h.1, hv1]
    · intro v hv
      rcases List.mem_append.mp hv with hm | hm
      · exact ⟨List.mem_cons_of_mem _ (h.2 v hm).1, (h.2 v hm).2⟩
      · rw [List.mem_singleton.mp hm]
        exact ⟨List.mem_cons_self _ _, h2⟩
  next => exact h

/-- A variable present after an add_var step was present before or is the
normalised capture just processed. -/
theorem addVar_mem {st : List String × List String} {raw : List Char} {v : String}
    (h : v ∈ (FormatString.addVar st raw).1) :
    v ∈ st.1 ∨ v = String.mk (FormatString.stripRaw raw) := by
  unfold FormatString.addVar at h
  split at h
  · rcases List.mem_append.mp h with hm | hm
    · exact Or.inl hm
    · exact Or.inr (List.mem_singleton.mp hm)
  · exact Or.inl h

/-- The add_var fold preserves the invariant. -/
theorem addVar_foldl_inv (raws : List (List Char)) :
    ∀ st, AddVarInv st → AddVarInv (raws.foldl FormatString.addVar st) := by
  induction raws with
  | nil => intro st h; exact h
  | cons raw rest ih => intro st h; exact ih _ (addVar_inv st raw h)

/-- Every variable produced by the add_var fold is the normalisation of
one of the raw captures (or was already present). -/
theorem addVar_foldl_src (raws : List (List Char)) :
    ∀ (st : List String × List String) (v : String),
      v ∈ (raws.foldl FormatString.addVar st).1 →
      v ∈ st.1 ∨ ∃ raw ∈ raws, v = String.mk (FormatString.stripRaw raw) := by
  induction raws with
  | nil => intro st v h; exact Or.inl h
  | cons raw rest ih =>
    intro st v h
    rcases ih _ v h with h1 | ⟨raw2, hraw2, hv2⟩
    · rcases addVar_mem h1 with hm | hm
      · exact Or.inl hm
      · exact Or.inr ⟨raw, List.mem_cons_self _ _, hm⟩
    · exact Or.inr ⟨raw2, List.mem_cons_of_mem _ hraw2, hv2⟩

/-! ### Claim C1 -/

/-- The template variable name a. -/
def sVarA : String := "a"

/-- The template variable name x. -/
def sVarX : String := "x"

/-- The template variable name used in `tmplName`. -/
def sVarName : String := "name"

/-- Claim C1 counterexample: on the template holding the Jinja2
expression a.b and the control structure if x pipe y, the extractor
returns the names a and x; neither name occurs in the template in the
Python format-style dialect nor in the Jinja2 double-brace dialect, so
the claim that every returned name occurs in one of the two dialects
fails. -/
theorem extract_keys_beyond_the_two_dialects :
    FormatString._extract_keys tmplMixed = [ sVarA, sVarX ] ∧
    SpecModel.occursSimpleB sVarA tmplMixed = false ∧
    SpecModel.occursJinjaB sVarA tmplMixed = false ∧
    SpecModel.occursSimpleB sVarX tmplMixed = false ∧
    SpecModel.occursJinjaB sVarX tmplMixed = false := by decide

/-- Claim C1 amended: _extract_keys returns a duplicate-free list that
excludes the additional_context keys, and every returned name occurs in
the template (as a substring: it is the normalised form of a capture of
one of the three scanned syntaxes, which also cover dotted expression
cores and pipe-filtered names inside control structures). -/
theorem extract_keys_amended (t : String) :
    (FormatString._extract_keys t).Nodup ∧
    ∀ v ∈ FormatString._extract_keys t,
      v ∉ FormatString.additional_context ∧ v.data <:+: t.data := by
  have hinv := addVar_foldl_inv
    (FormatString.pass1 t.data ++ FormatString.pass2 t.data ++ FormatString.pass3 t.data)
    ([], []) ⟨List.nodup_nil, by simp⟩
  refine ⟨hinv.1, ?_⟩
  intro v hv
  refine ⟨(hinv.2 v hv).2, ?_⟩
  rcases addVar_foldl_src _ _ v hv with h1 | ⟨raw, hraw, hveq⟩
  · simp at h1
  · have hsub : raw <:+: t.data := by
      rcases List.mem_append.mp hraw with h12 | h3
      · rcases List.mem_append.mp h12 with h1p | h2p
        · exact pass1Aux_isInfix _ _ _ h1p
        · exact pass2Aux_isInfix _ _ _ h2p
      · exact pass3Aux_isInfix _ _ _ h3
    rw [hveq]
    exact infix_trans (stripRaw_isInfix raw) hsub

/-- Witness for the amended claim C1 at a concrete template. -/
theorem extract_keys_amended_witness :
    (sVarName ∈ FormatString._extract_keys tmplName) ∧
    sVarName ∉ FormatString.additional_context ∧
    sVarName.data <:+: tmplName.data :=
  ⟨by decide, (extract_keys_amended tmplName).2 sVarName (by decide)⟩
